import Mathlib

/-!
Verification of the streaming bridge of a desktop OpenAI chat client.

The code under verification lives in `src/app/openai_client.py`
(classes `StreamingClient` and `StreamQueue`) and `src/app/utils.py`
(function `validate_api_key`).  The Python classes are shallowly
embedded below: the queue becomes explicit state passing over a
`StreamQueue` structure, the background worker `_stream` becomes a
function from the observed remote-stream behaviour and the observed
stop-flag schedule to the list of callback invocations it performs,
and Python exceptions are modelled abstractly by an identity drawn
from `Nat`.
-/

/-- Python exceptions, modelled abstractly by an identity. -/
abbrev Exc := Nat

/-- Shallow embedding of `StreamQueue` (src/app/openai_client.py).
The Python object holds a `queue.Queue[str | None]` (here `queue`,
front of the list = front of the FIFO), the boolean `_complete` flag
and the stored `_error : Exception | None`.  The sentinel pushed by
`mark_complete` / `mark_error` is the entry `none`. -/
structure StreamQueue where
  queue : List (Option String)
  complete : Bool
  error : Option Exc
deriving DecidableEq

/-- Constructor `StreamQueue.__init__`: empty queue, `_complete = False`, `_error = None`. -/
def StreamQueue.init : StreamQueue :=
  { queue := [], complete := false, error := none }

/-- Method `add_token`: `self.queue.put(token)`. -/
def StreamQueue.add_token (q : StreamQueue) (t : String) : StreamQueue :=
  { q with queue := q.queue ++ [some t] }

/-- Method `mark_complete`: set `self._complete = True` and `self.queue.put(None)`. -/
def StreamQueue.mark_complete (q : StreamQueue) : StreamQueue :=
  { q with complete := true, queue := q.queue ++ [none] }

/-- Method `mark_error`: store `self._error = error` and `self.queue.put(None)`. -/
def StreamQueue.mark_error (q : StreamQueue) (e : Exc) : StreamQueue :=
  { q with error := some e, queue := q.queue ++ [none] }

/-- Method `get_token(timeout)`: `self.queue.get(timeout=timeout)`, returning
`None` on `queue.Empty`.  The timeout only bounds the wait for the single
producer; a queue that stays empty for the whole timeout is modelled as
an empty `queue` list, for which the `queue.Empty` branch returns `none`
and leaves the state unchanged. -/
def StreamQueue.get_token (q : StreamQueue) : Option String × StreamQueue :=
  match q.queue with
  | [] => (none, q)
  | x :: xs => (x, { q with queue := xs })

/-- Method `is_complete`: `return self._complete`. -/
def StreamQueue.is_complete (q : StreamQueue) : Bool :=
  q.complete

/-- Method `has_error`: `return self._error is not None`. -/
def StreamQueue.has_error (q : StreamQueue) : Bool :=
  q.error.isSome

/-- Method `get_error`: `return self._error`. -/
def StreamQueue.get_error (q : StreamQueue) : Option Exc :=
  q.error

/-- The public mutating operations of `StreamQueue`, for reasoning about
arbitrary call sequences. -/
inductive QOp where
  | addToken (t : String)
  | markComplete
  | markError (e : Exc)
  | getToken
deriving DecidableEq

/-- Apply one queue operation to a queue state. -/
def StreamQueue.applyOp (q : StreamQueue) : QOp → StreamQueue
  | .addToken t => q.add_token t
  | .markComplete => q.mark_complete
  | .markError e => q.mark_error e
  | .getToken => (q.get_token).snd

/-- Apply a sequence of queue operations, oldest first. -/
def StreamQueue.applyOps (q : StreamQueue) (ops : List QOp) : StreamQueue :=
  ops.foldl StreamQueue.applyOp q

/-- Push a whole list of tokens via `add_token`, oldest first. -/
def StreamQueue.pushAll (q : StreamQueue) (ts : List String) : StreamQueue :=
  ts.foldl StreamQueue.add_token q

/-- Drain a queue by repeated `get_token` calls, stopping on the first
`none` result (empty queue or sentinel) or when the fuel runs out. -/
def StreamQueue.drain : Nat → StreamQueue → List String
  | 0, _ => []
  | fuel + 1, q =>
    match q.get_token with
    | (some t, q') => t :: StreamQueue.drain fuel q'
    | (none, _) => []

-- Helper lemmas about the queue state after operation sequences.

theorem StreamQueue.pushAll_queue (ts : List String) :
    ∀ q : StreamQueue, (q.pushAll ts).queue = q.queue ++ ts.map some := by
  induction ts with
  | nil => intro q; simp [StreamQueue.pushAll]
  | cons t ts ih =>
    intro q
    simp only [StreamQueue.pushAll, List.foldl_cons] at *
    rw [ih (q.add_token t)]
    simp [StreamQueue.add_token]

theorem StreamQueue.drain_of_queue_eq (ts : List String) :
    ∀ q : StreamQueue, q.queue = ts.map some →
      StreamQueue.drain ts.length q = ts := by
  induction ts with
  | nil => intro q _; simp [StreamQueue.drain]
  | cons t ts ih =>
    intro q hq
    simp only [List.map_cons, List.length_cons] at hq ⊢
    simp only [StreamQueue.drain, StreamQueue.get_token, hq]
    exact congrArg (t :: ·) (ih _ rfl)

theorem StreamQueue.applyOps_complete_of_no_markComplete (ops : List QOp) :
    ∀ q : StreamQueue, QOp.markComplete ∉ ops →
      (q.applyOps ops).complete = q.complete := by
  induction ops with
  | nil => intro q _; rfl
  | cons op ops ih =>
    intro q hmem
    have hop : op ≠ QOp.markComplete := fun h => hmem (h ▸ List.mem_cons_self _ _)
    have hops : QOp.markComplete ∉ ops := fun h => hmem (List.mem_cons_of_mem _ h)
    simp only [StreamQueue.applyOps, List.foldl_cons] at *
    rw [ih _ hops]
    cases op with
    | addToken t => rfl
    | markComplete => exact absurd rfl hop
    | markError e => rfl
    | getToken =>
      simp only [StreamQueue.applyOp, StreamQueue.get_token]
      cases hq : q.queue <;> rfl

-- Claims C5, C6, C7, C10, C2 about `StreamQueue`.

/-- C5: for every finite sequence of tokens pushed via `add_token`
(single producer), draining the queue via `get_token` yields exactly
those tokens in the order they were pushed (FIFO round-trip). -/
theorem C5_fifo_round_trip (ts : List String) :
    StreamQueue.drain ts.length (StreamQueue.init.pushAll ts) = ts := by
  apply StreamQueue.drain_of_queue_eq
  rw [StreamQueue.pushAll_queue]
  rfl

/-- C6: after `mark_complete()`, `is_complete()` returns `true` and
exactly one sentinel entry (`none`) has been appended to the queue,
after all tokens pushed before the call. -/
theorem C6_mark_complete (q : StreamQueue) :
    (q.mark_complete).is_complete = true ∧
    (q.mark_complete).queue = q.queue ++ [none] :=
  ⟨rfl, rfl⟩

/-- C7: after `mark_error(e)`, `has_error()` returns `true`,
`get_error()` returns exactly `e`, and one sentinel entry has been
enqueued. -/
theorem C7_mark_error (q : StreamQueue) (e : Exc) :
    (q.mark_error e).has_error = true ∧
    (q.mark_error e).get_error = some e ∧
    (q.mark_error e).queue = q.queue ++ [none] :=
  ⟨rfl, rfl, rfl⟩

/-- C10: for every call sequence on a fresh `StreamQueue` that never
contains `mark_complete()` — in particular one where only
`mark_error(e)` was called — `is_complete()` returns `false`: the
complete flag is set only by its own marking operation. -/
theorem C10_error_not_complete (ops : List QOp)
    (h : QOp.markComplete ∉ ops) :
    (StreamQueue.init.applyOps ops).is_complete = false :=
  StreamQueue.applyOps_complete_of_no_markComplete ops StreamQueue.init h

theorem C10_error_not_complete_witness :
    QOp.markComplete ∉ [QOp.markError 7, QOp.addToken "late", QOp.getToken] ∧
    (StreamQueue.init.applyOps
      [QOp.markError 7, QOp.addToken "late", QOp.getToken]).is_complete = false :=
  ⟨by decide,
   C10_error_not_complete [QOp.markError 7, QOp.addToken "late", QOp.getToken]
     (by decide)⟩

/-- C2 counterexample: the value `get_token` returns on a queue that
stays empty through the timeout is `none`, exactly the same value it
returns when it dequeues the sentinel enqueued by `mark_complete` —
the two outcomes are NOT distinct by returned value. -/
theorem C2_counterexample :
    (StreamQueue.init.mark_complete.get_token).fst
      = (StreamQueue.init.get_token).fst :=
  rfl

/-- C2 amended: on a queue that stays empty for the whole timeout,
`get_token` returns `none`, the same value obtained when dequeuing the
sentinel after `mark_complete`; the two situations are distinguished
not by the returned value but by `is_complete()` (respectively
`has_error()`), which is `true` exactly in the sentinel case. -/
theorem C2_empty_vs_sentinel (q : StreamQueue)
    (hq : q.queue = []) (hc : q.complete = false) :
    (q.get_token).fst = none ∧
    (q.mark_complete.get_token).fst = none ∧
    q.is_complete = false ∧
    q.mark_complete.is_complete = true := by
  refine ⟨?_, ?_, hc, rfl⟩
  · simp [StreamQueue.get_token, hq]
  · simp [StreamQueue.get_token, StreamQueue.mark_complete, hq]

theorem C2_empty_vs_sentinel_witness :
    StreamQueue.init.queue = [] ∧ StreamQueue.init.complete = false ∧
    ((StreamQueue.init.get_token).fst = none ∧
     (StreamQueue.init.mark_complete.get_token).fst = none ∧
     StreamQueue.init.is_complete = false ∧
     StreamQueue.init.mark_complete.is_complete = true) :=
  ⟨rfl, rfl, C2_empty_vs_sentinel StreamQueue.init rfl rfl⟩

/-!
The streaming worker.  `StreamingClient.stream_chat_completion` launches
the closure `_stream` on a background thread.  Inside one `try` block the
worker iterates over the remote stream; at the top of each loop iteration
it checks `self._stop_event.is_set()` and `break`s if set; for a chunk
whose `delta.content` is truthy (present and non-empty) it appends the
token to `full_response` and calls `on_token(token)`; after the loop it
calls `on_complete(full_response)` unless the stop event is set; any
exception raised inside the block is caught and handed to `on_error(e)`.

The remote stream is modelled as the list of `delta.content` fields of
the chunks it yields (`none` when the attribute is absent or `None`),
plus an optional exception raised when fetching the chunk after the last
one (`err = some e`; `err` with an empty `chunks` list also models a
`create` call that raises immediately).  The stop flag is set once by
another thread and never cleared during a session, so its interleaving
with the worker is captured by the index of the first `is_set()` check
that observes it: the worker performs one check per loop iteration
(check `i` for chunk `i`) followed by one final check, and `stopAt =
some n` means every check with index `≥ n` returns `True`, `stopAt =
none` that the flag is never set.
-/

/-- A callback invocation performed by the worker, in order. -/
inductive Event where
  | onToken (t : String)
  | onComplete (full : String)
  | onError (e : Exc)
deriving DecidableEq

/-- Holds (`true`) exactly for `onToken` events. -/
def Event.isToken : Event → Bool
  | .onToken _ => true
  | _ => false

/-- The observed behaviour of one remote stream: the `delta.content`
of each yielded chunk, and the exception raised after them, if any. -/
structure StreamBehavior where
  chunks : List (Option String)
  err : Option Exc
deriving DecidableEq

/-- The value the `i`-th `self._stop_event.is_set()` check returns when
the flag becomes set at check index `stopAt` (monotone: once set it
stays set; `none` = never set during the session). -/
def stopCheck (stopAt : Option Nat) (i : Nat) : Bool :=
  match stopAt with
  | some n => decide (n ≤ i)
  | none => false

/-- The loop of `_stream`, from the `i`-th chunk on, with accumulator
`full` (`full_response`): emits the callback invocations the worker
performs.  On exhaustion of the chunks either the pending exception is
raised (caught by the `try`, invoking `on_error`) or the final
`if not self._stop_event.is_set(): on_complete(full_response)` runs. -/
def streamGo (stopAt : Option Nat) (err : Option Exc) :
    Nat → String → List (Option String) → List Event
  | i, full, [] =>
    match err with
    | some e => [Event.onError e]
    | none => if stopCheck stopAt i then [] else [Event.onComplete full]
  | i, full, c :: cs =>
    if stopCheck stopAt i then []
    else
      match c with
      | some t =>
        if t = "" then streamGo stopAt err (i + 1) full cs
        else Event.onToken t :: streamGo stopAt err (i + 1) (full ++ t) cs
      | none => streamGo stopAt err (i + 1) full cs

/-- The full trace of callback invocations of one `_stream` run. -/
def runStream (b : StreamBehavior) (stopAt : Option Nat) : List Event :=
  streamGo stopAt b.err 0 "" b.chunks

/-- The token fragments the worker passes to `on_token`: the chunk
contents that are present and truthy (non-empty), in receipt order. -/
def emittedTokens (cs : List (Option String)) : List String :=
  (cs.filterMap id).filter (fun t => t ≠ "")

theorem String.join_cons_eq (t : String) (l : List String) :
    String.join (t :: l) = t ++ String.join l := by
  apply String.ext
  simp [String.data_join]

-- Trace characterization of an uncancelled, error-free run.

theorem streamGo_no_stop_no_err (cs : List (Option String)) :
    ∀ i full, streamGo none none i full cs
      = (emittedTokens cs).map Event.onToken
          ++ [Event.onComplete (full ++ String.join (emittedTokens cs))] := by
  induction cs with
  | nil =>
    intro i full
    simp [streamGo, stopCheck, emittedTokens, String.join]
  | cons c cs ih =>
    intro i full
    cases c with
    | none =>
      simp only [streamGo, stopCheck, if_false, Bool.false_eq_true]
      rw [ih (i + 1) full]
      simp [emittedTokens]
    | some t =>
      by_cases ht : t = ""
      · subst ht
        simp only [streamGo, stopCheck, if_true, if_false, Bool.false_eq_true]
        rw [ih (i + 1) full]
        simp [emittedTokens]
      · simp only [streamGo, stopCheck, Bool.false_eq_true, if_false]
        rw [if_neg ht, ih (i + 1) (full ++ t)]
        have he : emittedTokens (some t :: cs) = t :: emittedTokens cs := by
          simp [emittedTokens, ht]
        rw [he, String.join_cons_eq, ← String.append_assoc]
        simp

/-- C3: a session that finishes without cancellation and without an
error invokes `on_complete` exactly once, after all `on_token` calls,
with argument the concatenation, in receipt order, of exactly the
fragments previously passed to `on_token`. -/
theorem C3_complete_trace (b : StreamBehavior) (h : b.err = none) :
    runStream b none
      = (emittedTokens b.chunks).map Event.onToken
          ++ [Event.onComplete (String.join (emittedTokens b.chunks))] := by
  unfold runStream
  rw [h, streamGo_no_stop_no_err b.chunks 0 ""]
  rw [String.empty_append]

theorem C3_complete_trace_witness :
    (StreamBehavior.mk [some "Hel", some "lo"] none).err = none ∧
    runStream (StreamBehavior.mk [some "Hel", some "lo"] none) none
      = [Event.onToken "Hel", Event.onToken "lo", Event.onComplete "Hello"] := by
  refine ⟨rfl, ?_⟩
  rw [C3_complete_trace (StreamBehavior.mk [some "Hel", some "lo"] none) rfl]
  rfl

-- Cancellation: once a check observes the stop flag, the remainder of
-- the run emits no callback at all (in particular no terminal one).

theorem streamGo_stop_observed (n : Nat) (err : Option Exc)
    (cs : List (Option String)) :
    ∀ i full, i ≤ n →
      (n < i + cs.length ∨ (n = i + cs.length ∧ err = none)) →
      (streamGo (some n) err i full cs).all Event.isToken = true := by
  induction cs with
  | nil =>
    intro i full hi hb
    have hn : n = i ∧ err = none := by
      rcases hb with hlt | ⟨hn, he⟩
      · simp only [List.length_nil, Nat.add_zero] at hlt; omega
      · exact ⟨by simpa using hn, he⟩
    rcases hn with ⟨hn, he⟩
    subst hn; subst he
    simp [streamGo, stopCheck]
  | cons c cs ih =>
    intro i full hi hb
    simp only [List.length_cons] at hb
    by_cases hni : n ≤ i
    · cases c <;> simp [streamGo, stopCheck, hni]
    · have hi1 : i + 1 ≤ n := by omega
      have hb1 : n < (i + 1) + cs.length ∨ (n = (i + 1) + cs.length ∧ err = none) := by
        rcases hb with h | ⟨h, he⟩
        · left; omega
        · right; exact ⟨by omega, he⟩
      cases c with
      | none => simpa [streamGo, stopCheck, hni] using ih (i + 1) full hi1 hb1
      | some t =>
        by_cases ht : t = ""
        · subst ht
          simpa [streamGo, stopCheck, hni] using ih (i + 1) full hi1 hb1
        · simp only [streamGo, stopCheck, hni, decide_eq_true_eq, if_neg, ht,
            if_false, List.all_cons, Event.isToken, Bool.true_and]
          exact ih (i + 1) (full ++ t) hi1 hb1

/-- C1: in a session where `stop_streaming()` was called and the worker
observes the stop flag — the flag is set from check index `n` on, and
check `n` is actually performed: either `n` falls on a loop iteration,
or it is the final check of a run whose stream raises no exception —
every callback the worker ever invokes is an `on_token` call: neither
`on_complete` nor `on_error` fires, even if the underlying stream was
about to raise (the worker breaks out of the loop and never touches the
stream again). -/
theorem C1_no_terminal_after_stop (b : StreamBehavior) (n : Nat)
    (h : n < b.chunks.length ∨ (n = b.chunks.length ∧ b.err = none)) :
    (runStream b (some n)).all Event.isToken = true :=
  streamGo_stop_observed n b.err b.chunks 0 "" (Nat.zero_le n) (by simpa using h)

theorem C1_no_terminal_after_stop_witness :
    (1 < (StreamBehavior.mk [some "A", some "B", some "C"] (some 5)).chunks.length) ∧
    (runStream (StreamBehavior.mk [some "A", some "B", some "C"] (some 5))
        (some 1)).all Event.isToken = true :=
  ⟨by decide,
   C1_no_terminal_after_stop (StreamBehavior.mk [some "A", some "B", some "C"] (some 5))
     1 (Or.inl (by decide))⟩

-- Shape of an arbitrary run: a prefix of the received fragments, in
-- receipt order, followed by at most one terminal event.

theorem streamGo_shape (cs : List (Option String)) (stopAt : Option Nat)
    (err : Option Exc) :
    ∀ i full, ∃ ts rest term,
      streamGo stopAt err i full cs = ts.map Event.onToken ++ term ∧
      emittedTokens cs = ts ++ rest ∧
      term.length ≤ 1 ∧
      ∀ ev ∈ term, (∃ s, ev = Event.onComplete s) ∨ (∃ e, ev = Event.onError e) := by
  induction cs with
  | nil =>
    intro i full
    cases err with
    | some e =>
      exact ⟨[], [], [Event.onError e], by simp [streamGo], by simp [emittedTokens],
        by simp, by simp⟩
    | none =>
      by_cases hstop : stopCheck stopAt i = true
      · exact ⟨[], [], [], by simp [streamGo, hstop], by simp [emittedTokens],
          by simp, by simp⟩
      · exact ⟨[], [], [Event.onComplete full], by simp [streamGo, hstop],
          by simp [emittedTokens], by simp, by simp⟩
  | cons c cs ih =>
    intro i full
    by_cases hstop : stopCheck stopAt i = true
    · exact ⟨[], emittedTokens (c :: cs), [], by simp [streamGo, hstop], by simp,
        by simp, by simp⟩
    · cases c with
      | none =>
        obtain ⟨ts, rest, term, h1, h2, h3, h4⟩ := ih (i + 1) full
        refine ⟨ts, rest, term, ?_, ?_, h3, h4⟩
        · simpa [streamGo, hstop] using h1
        · simpa [emittedTokens] using h2
      | some t =>
        by_cases ht : t = ""
        · subst ht
          obtain ⟨ts, rest, term, h1, h2, h3, h4⟩ := ih (i + 1) full
          refine ⟨ts, rest, term, ?_, ?_, h3, h4⟩
          · simpa [streamGo, hstop] using h1
          · simpa [emittedTokens] using h2
        · obtain ⟨ts, rest, term, h1, h2, h3, h4⟩ := ih (i + 1) (full ++ t)
          refine ⟨t :: ts, rest, term, ?_, ?_, h3, h4⟩
          · simpa [streamGo, hstop, ht] using congrArg (Event.onToken t :: ·) h1
          · have : emittedTokens (some t :: cs) = t :: emittedTokens cs := by
              simp [emittedTokens, ht]
            rw [this, h2]; rfl

/-- C4: in every session, the trace of callback invocations is a
prefix (`ts`) of the fragments received from the remote stream, passed
to `on_token` in receipt order, followed by at most one terminal event
(`on_complete` or `on_error`): every `on_token` call occurs strictly
before the terminal callback of that invocation. -/
theorem C4_tokens_in_order_before_terminal (b : StreamBehavior)
    (stopAt : Option Nat) :
    ∃ ts rest term,
      runStream b stopAt = ts.map Event.onToken ++ term ∧
      emittedTokens b.chunks = ts ++ rest ∧
      term.length ≤ 1 ∧
      ∀ ev ∈ term, (∃ s, ev = Event.onComplete s) ∨ (∃ e, ev = Event.onError e) :=
  streamGo_shape b.chunks stopAt b.err 0 ""

/-- The mutable state of `StreamingClient` relevant to a session: the
configured model identifier and the cancellation flag `_stop_event`, a
`threading.Event` modelled by its boolean set-state.  The SDK client
handle is an external collaborator that `stop_streaming` never touches. -/
structure StreamingClient where
  model : String
  stop_event : Bool
deriving DecidableEq

/-- Method `stop_streaming`: `self._stop_event.set()` (the log line has no
observable effect on the session). -/
def StreamingClient.stop_streaming (c : StreamingClient) : StreamingClient :=
  { c with stop_event := true }

/-- C8: calling `stop_streaming()` twice leaves the client in exactly
the state a single call produces — `threading.Event.set` on an already
set flag changes nothing, so the cancellation flag and every observable
effect on the session are identical (idempotence). -/
theorem C8_stop_streaming_idempotent (c : StreamingClient) :
    c.stop_streaming.stop_streaming = c.stop_streaming :=
  rfl

/-- Python `str.startswith(p)`: the character sequence of `p` is a
prefix of the character sequence of `s`. -/
def pyStartswith (s p : String) : Bool :=
  p.data.isPrefixOf s.data

/-- Function `validate_api_key` (src/app/utils.py): `if not api_key: return
False` (the empty string is falsy), then `api_key.startswith("sk-")
and len(api_key) > 20`. -/
def validate_api_key (api_key : String) : Bool :=
  if api_key = "" then false
  else pyStartswith api_key "sk-" && decide (api_key.length > 20)

/-- C9: `validate_api_key` returns `true` iff the key begins with the
fixed prefix `"sk-"` and its length exceeds the minimum length 20 — no
other validation of the credential is performed locally. -/
theorem C9_validate_api_key (api_key : String) :
    validate_api_key api_key = true ↔
      ("sk-".data <+: api_key.data ∧ 20 < api_key.length) := by
  unfold validate_api_key pyStartswith
  by_cases h : api_key = ""
  · subst h
    simp
  · simp [h, List.isPrefixOf_iff_prefix]
